import Mathlib

/-!
Shallow embedding of the session-scoped conversation management subsystem:
`services/session_service.py`, `services/agent_service.py` and
`api/streaming.py`.

Modelling conventions:
* `datetime` instants are integers (one unit = one hour, matching
  `timedelta(hours=max_age_hours)`); every call that reads the wall clock
  (`datetime.now()`) takes the current instant `now : Int` explicitly.
* The Python `dict` backing `InMemorySessionStorage._sessions` is an
  insertion-ordered association list `Store`; `dictSet` mirrors
  `d[k] = v` (replace in place when the key exists, append otherwise)
  and deletion removes the entry with the given key.
* `uuid.uuid4()` is an external randomness source, passed in as the
  oracle argument `freshId`.
* Python `raise` of `ValueError` is `Except.error` carrying the message;
  a raising call returns no new store, i.e. the store is untouched.
* `metadata or {}` is `Option.getD` with the empty mapping (an empty dict
  is falsy in Python and `{} or {}` is `{}` as well).
-/

abbrev Metadata := List (String × String)

/-- The `Message` dataclass: role, content, timestamp, metadata. -/
structure Message where
  role : String
  content : String
  timestamp : Int
  metadata : Metadata
deriving DecidableEq, Repr

/-- The `ConversationSession` dataclass. -/
structure ConversationSession where
  session_id : String
  messages : List Message
  created_at : Int
  updated_at : Int
  metadata : Metadata
deriving DecidableEq, Repr

/-- Method `ConversationSession.add_message`: append one message, bump `updated_at`
to the current instant (`datetime.now()` is the explicit `now`). -/
def ConversationSession.add_message (s : ConversationSession) (role content : String)
    (metadata : Option Metadata) (now : Int) : ConversationSession :=
  { s with
    messages := s.messages ++ [⟨role, content, now, metadata.getD []⟩]
    updated_at := now }

/-- Item of the list returned by `ConversationSession.get_conversation_history`
(the `{role, content, timestamp}` dict; the message metadata is dropped). -/
structure HistoryEntry where
  role : String
  content : String
  timestamp : Int
deriving DecidableEq, Repr

/-- Method `ConversationSession.get_conversation_history`. -/
def ConversationSession.get_conversation_history (s : ConversationSession) :
    List HistoryEntry :=
  s.messages.map fun msg => ⟨msg.role, msg.content, msg.timestamp⟩

/-- The `_sessions` dict of `InMemorySessionStorage`, as an insertion-ordered
association list. -/
abbrev Store := List (String × ConversationSession)

/-- Membership test `session_id in self._sessions`. -/
def containsKey (store : Store) (sid : String) : Bool :=
  store.any fun p => p.1 == sid

/-- Assignment `self._sessions[sid] = session`: replace in place when the key is
present, append otherwise (Python dicts keep insertion order). -/
def dictSet (store : Store) (sid : String) (session : ConversationSession) : Store :=
  if containsKey store sid then
    store.map fun p => if p.1 == sid then (sid, session) else p
  else
    store ++ [(sid, session)]

namespace InMemorySessionStorage

/-- Method `InMemorySessionStorage.create_session`.  `freshId` is the value
`str(uuid.uuid4())` would produce; `now` feeds the dataclass defaults
`created_at`/`updated_at`. -/
def create_session (store : Store) (session_id : Option String)
    (freshId : String) (now : Int) :
    Except String (ConversationSession × Store) :=
  let sid := match session_id with
    | none => freshId
    | some s => s
  if containsKey store sid then
    .error ("Session " ++ sid ++ " already exists")
  else
    let session : ConversationSession := ⟨sid, [], now, now, []⟩
    .ok (session, dictSet store sid session)

/-- Method `InMemorySessionStorage.get_session` (`dict.get`: no error on a miss). -/
def get_session (store : Store) (session_id : String) :
    Option ConversationSession :=
  (store.find? fun p => p.1 == session_id).map (·.2)

/-- Method `InMemorySessionStorage.update_session`: unconditional
`self._sessions[session.session_id] = session`. -/
def update_session (store : Store) (session : ConversationSession) : Store :=
  dictSet store session.session_id session

/-- Method `InMemorySessionStorage.delete_session`. -/
def delete_session (store : Store) (session_id : String) : Bool × Store :=
  if containsKey store session_id then
    (true, store.filter fun p => !(p.1 == session_id))
  else
    (false, store)

/-- Method `InMemorySessionStorage.cleanup_expired_sessions`: collect the ids whose
`updated_at` is strictly before `now - max_age_hours`, delete each, and
return how many were collected. -/
def cleanup_expired_sessions (store : Store) (now : Int) (max_age_hours : Int) :
    Nat × Store :=
  let cutoff_time := now - max_age_hours
  let expired_sessions :=
    (store.filter fun p => decide (p.2.updated_at < cutoff_time)).map Prod.fst
  let store2 := expired_sessions.foldl
    (fun st sid => st.filter fun p => !(p.1 == sid)) store
  (expired_sessions.length, store2)

end InMemorySessionStorage

namespace SessionService

open InMemorySessionStorage

/-- Method `SessionService.create_session` (delegates to the storage). -/
def create_session (store : Store) (session_id : Option String)
    (freshId : String) (now : Int) :
    Except String (ConversationSession × Store) :=
  InMemorySessionStorage.create_session store session_id freshId now

/-- Method `SessionService.get_or_create_session`.  Python's `if session_id:` is
false both for `None` and for the empty string, so an empty-string id is
never looked up and goes straight to `create_session`. -/
def get_or_create_session (store : Store) (session_id : Option String)
    (freshId : String) (now : Int) :
    Except String (ConversationSession × Store) :=
  match session_id with
  | some sid =>
    if sid = "" then
      InMemorySessionStorage.create_session store (some sid) freshId now
    else
      match get_session store sid with
      | some session => .ok (session, store)
      | none => InMemorySessionStorage.create_session store (some sid) freshId now
  | none => InMemorySessionStorage.create_session store none freshId now

/-- Method `SessionService.add_message`: raises `ValueError` when the session is
absent, otherwise appends via `ConversationSession.add_message`, persists
with `update_session` and returns the updated session. -/
def add_message (store : Store) (session_id role content : String)
    (metadata : Option Metadata) (now : Int) :
    Except String (ConversationSession × Store) :=
  match get_session store session_id with
  | none => .error ("Session " ++ session_id ++ " not found")
  | some session =>
    let session2 := session.add_message role content metadata now
    .ok (session2, update_session store session2)

/-- Method `SessionService.get_conversation_history`: raises `ValueError` when the
session is absent. -/
def get_conversation_history (store : Store) (session_id : String) :
    Except String (List HistoryEntry) :=
  match get_session store session_id with
  | none => .error ("Session " ++ session_id ++ " not found")
  | some session => .ok session.get_conversation_history

end SessionService

/-- Well-formedness every store reachable through the Python API enjoys:
dict keys are unique, and each session is stored under its own
`session_id` (sessions are inserted at `create_session` under their id and
re-keyed by `update_session` under `session.session_id`). -/
def StoreWF (store : Store) : Prop :=
  (store.map Prod.fst).Nodup ∧ ∀ p ∈ store, p.2.session_id = p.1

instance : DecidablePred StoreWF := fun store =>
  inferInstanceAs
    (Decidable ((store.map Prod.fst).Nodup ∧ ∀ p ∈ store, p.2.session_id = p.1))

namespace AgentService

/-- The local `recent_history` of `_build_context_from_history`:
`history[-10:] if len(history) > 10 else history`. -/
def recent_history (history : List HistoryEntry) : List HistoryEntry :=
  if history.length > 10 then history.drop (history.length - 10) else history

/-- Body of the context loop: `f"{role_pt}: {msg['content']}"` with
`role_pt = "Usuário" if msg["role"] == "user" else "Assistente"`. -/
def render_history_line (msg : HistoryEntry) : String :=
  (if msg.role = "user" then "Usuário" else "Assistente") ++ ": " ++ msg.content

/-- Method `AgentService._build_context_from_history`. -/
def build_context_from_history (history : List HistoryEntry)
    (current_query : String) : String :=
  if history.isEmpty then current_query
  else
    let recent := recent_history history
    let context_parts : List String :=
      if recent.length > 1 then
        ["Contexto da conversa anterior:"]
          ++ recent.dropLast.map render_history_line
          ++ ["\nPergunta atual:"]
          ++ [current_query]
      else [current_query]
    String.intercalate "\n" context_parts

/-- The f-string template wrapped around an attached document's extracted
text in `process_query_stream`. -/
def curriculum_template (file_content query : String) : String :=
  "\nAnalise o currículo fornecido e com base na pergunta do usuário, forneça recomendações personalizadas de estudo e carreira.\n\nCURRÍCULO:\n"
    ++ file_content
    ++ "\n\nPERGUNTA DO USUÁRIO:\n"
    ++ query
    ++ "\n\nPor favor, analise o currículo e forneça recomendações específicas para ajudar a pessoa a atingir seus objetivos, incluindo:\n1. Habilidades que devem ser desenvolvidas\n2. Cursos ou certificações recomendados\n3. Áreas de melhoria identificadas no currículo\n4. Estratégias de carreira baseadas no perfil atual\n"

/-- The `enhanced_query` computation of `process_query_stream`.
`file_data : Option (Except String String)` abstracts the external
extraction collaborator `_extract_file_content`: `none` when no file was
attached, `.ok text` when extraction returned `text`, `.error e` when it
raised (the degraded path appends the Portuguese note to the query). -/
def enhance_query (query : String) (file_data : Option (Except String String)) :
    String :=
  match file_data with
  | none => query
  | some (.ok file_content) => curriculum_template file_content query
  | some (.error _) =>
      query ++ "\n\n(Nota: Houve um erro ao processar o arquivo anexado)"

/-- One event yielded by `process_query_stream`: the three dict shapes
`{"type": "chunk", ...}`, `{"type": "complete", ...}` (whose metadata dict
carries `agent_name` and `conversation_length`) and `{"type": "error", ...}`
(which carries no session id). -/
inductive Event where
  | chunk (content : String) (session_id : String)
  | complete (session_id : String) (agent_name : String)
      (conversation_length : Nat)
  | error (message : String)
deriving DecidableEq, Repr

/-- Recognizer `Event.isComplete` for recognizer for the terminal `complete` event. -/
def Event.isComplete : Event → Bool
  | .complete _ _ _ => true
  | _ => false

/-- Observed behaviour, for one turn, of the external completion stream
`_process_with_agent_stream`: the text fragments it yields, followed by
`some e` when it raises after those fragments (raising before the first
fragment is `fragments = []`), or `none` when it is exhausted normally. -/
structure StreamSpec where
  fragments : List String
  error : Option String
deriving DecidableEq, Repr

/-- Method `AgentService.process_query_stream`.  The whole body runs in a
`try/except` inside an async generator: events already yielded and store
writes already performed stay; an exception anywhere yields one final
`{"type": "error"}` event.  `full_response` accumulates the fragments by
string concatenation.  The Python locals `session`, and the session objects
touched by the two `add_message` calls, alias one mutable object in the
in-memory backend, so `len(session.messages)` in the completion event is
the length after both appends — here the messages of `session3`.  The
prompt `context` is computed exactly as in the source and handed to the
external completion service, whose behaviour this turn is `spec`. -/
def process_query_stream (store : Store) (query : String)
    (session_id : Option String) (metadata : Option Metadata)
    (file_data : Option (Except String String)) (freshId : String)
    (now : Int) (agent_name : String) (spec : StreamSpec) :
    List Event × Store :=
  match SessionService.get_or_create_session store session_id freshId now with
  | .error e => ([.error e], store)
  | .ok (session, store1) =>
    let enhanced_query := enhance_query query file_data
    match SessionService.add_message store1 session.session_id "user"
        enhanced_query (some (metadata.getD [])) now with
    | .error e => ([.error e], store1)
    | .ok (session2, store2) =>
      let _context := build_context_from_history
        session2.get_conversation_history enhanced_query
      let chunks := spec.fragments.map fun c =>
        Event.chunk c session.session_id
      let full_response := String.join spec.fragments
      match spec.error with
      | some e => (chunks ++ [.error e], store2)
      | none =>
        match SessionService.add_message store2 session.session_id "assistant"
            full_response (some [("agent_name", agent_name)]) now with
        | .error e => (chunks ++ [.error e], store2)
        | .ok (session3, store3) =>
          (chunks ++ [.complete session.session_id agent_name
            session3.messages.length], store3)

end AgentService

/-- One server-sent-event frame produced by `stream_agent_response` in
`api/streaming.py`: the JSON objects serialized into `data: ...` lines.
`error_flag` models the `"error": true` key of the error frame. -/
inductive WireFrame where
  | chunk (mime_type : String) (data : String) (session_id : String)
  | complete (turn_complete : Bool) (interrupted : Option Bool)
      (session_id : String) (agent_name : String) (conversation_length : Nat)
  | error (error_flag : Bool) (message : String) (turn_complete : Bool)
      (interrupted : Bool)
deriving DecidableEq, Repr

/-- Function `stream_agent_response`: the `if/elif/elif` dispatch on
`chunk_data.get("type")` over the orchestrator's event sequence, one wire
frame per event. -/
def stream_agent_response (events : List AgentService.Event) : List WireFrame :=
  events.map fun chunk_data =>
    match chunk_data with
    | .chunk content session_id => .chunk "text/plain" content session_id
    | .complete session_id agent_name conversation_length =>
        .complete true none session_id agent_name conversation_length
    | .error message => .error true message true true

/-! ## Store lemmas shared by the claim proofs -/

lemma find?_key_eq_none_of_not_contains {store : Store} {k : String}
    (h : containsKey store k = false) :
    (store.find? fun p => p.1 == k) = none := by
  rw [List.find?_eq_none]
  intro p hp
  rw [containsKey, List.any_eq_false] at h
  exact h p hp

lemma get_session_eq_none_of_not_contains {store : Store} {k : String}
    (h : containsKey store k = false) :
    InMemorySessionStorage.get_session store k = none := by
  rw [InMemorySessionStorage.get_session, find?_key_eq_none_of_not_contains h,
    Option.map_none']

lemma contains_eq_false_of_get_session_eq_none {store : Store} {k : String}
    (h : InMemorySessionStorage.get_session store k = none) :
    containsKey store k = false := by
  rw [InMemorySessionStorage.get_session, Option.map_eq_none'] at h
  rw [containsKey, List.any_eq_false]
  intro p hp hpk
  exact List.find?_eq_none.mp h p hp hpk

lemma find?_key_dictSet (store : Store) (k : String) (v : ConversationSession) :
    ((dictSet store k v).find? fun p => p.1 == k) = some (k, v) := by
  rw [dictSet]
  cases h : containsKey store k with
  | true =>
    simp only [if_true]
    induction store with
    | nil => simp [containsKey] at h
    | cons q rest ih =>
      rw [List.map_cons]
      by_cases hq : (q.1 == k) = true
      · rw [if_pos hq]
        exact List.find?_cons_of_pos _ (by simp)
      · rw [if_neg hq]
        rw [List.find?_cons]
        have hqf : (q.1 == k) = false := by simpa using hq
        rw [hqf]
        have h2 : (q.1 == k) = true ∨ (rest.any fun p => p.1 == k) = true := by
          rw [containsKey, List.any_cons, Bool.or_eq_true] at h
          exact h
        have h' : containsKey rest k = true := by
          rcases h2 with h2 | h2
          · exact absurd h2 hq
          · exact h2
        exact ih h'
  | false =>
    simp only [Bool.false_eq_true, if_false]
    rw [List.find?_append, find?_key_eq_none_of_not_contains h]
    simp [List.find?_cons]

lemma get_session_dictSet_same (store : Store) (k : String)
    (v : ConversationSession) :
    InMemorySessionStorage.get_session (dictSet store k v) k = some v := by
  rw [InMemorySessionStorage.get_session, find?_key_dictSet]
  rfl

lemma get_session_some_key {store : Store} {k : String}
    {s : ConversationSession}
    (hwf : StoreWF store)
    (h : InMemorySessionStorage.get_session store k = some s) :
    s.session_id = k := by
  rw [InMemorySessionStorage.get_session, Option.map_eq_some'] at h
  obtain ⟨p, hfind, hval⟩ := h
  have hmem := List.mem_of_find?_eq_some hfind
  have hkey := List.find?_some hfind
  simp only [beq_iff_eq] at hkey
  have := hwf.2 p hmem
  subst hval
  rw [this, hkey]

lemma storeWF_dictSet {store : Store} {k : String} {v : ConversationSession}
    (hwf : StoreWF store) (hv : v.session_id = k) :
    StoreWF (dictSet store k v) := by
  rw [dictSet]
  cases h : containsKey store k with
  | true =>
    simp only [if_true]
    constructor
    · have heq : ((store.map fun p => if p.1 == k then (k, v) else p).map Prod.fst)
          = store.map Prod.fst := by
        rw [List.map_map]
        refine List.map_congr_left fun p _ => ?_
        by_cases hpk : (p.1 == k) = true
        · simp only [Function.comp_apply, hpk, if_true]
          exact (by simpa using hpk : p.1 = k).symm
        · simp only [Function.comp_apply, hpk, if_false]
          simp
      rw [heq]
      exact hwf.1
    · intro q hq
      rw [List.mem_map] at hq
      obtain ⟨p, hp, hpq⟩ := hq
      by_cases hpk : (p.1 == k) = true
      · rw [if_pos hpk] at hpq
        rw [← hpq]
        exact hv
      · rw [if_neg hpk] at hpq
        rw [← hpq]
        exact hwf.2 p hp
  | false =>
    simp only [Bool.false_eq_true, if_false]
    constructor
    · rw [List.map_append, List.nodup_append]
      refine ⟨hwf.1, by simp, ?_⟩
      intro x hx hx'
      simp only [List.map_cons, List.map_nil, List.mem_singleton] at hx'
      subst hx'
      rw [containsKey, List.any_eq_false] at h
      rw [List.mem_map] at hx
      obtain ⟨p, hp, hpx⟩ := hx
      exact h p hp (by simp [hpx])
    · intro q hq
      rcases List.mem_append.mp hq with hq' | hq'
      · exact hwf.2 q hq'
      · simp only [List.mem_singleton] at hq'
        subst hq'
        exact hv

lemma create_session_ok {store : Store} {osid : Option String}
    {freshId : String} {now : Int} {session : ConversationSession}
    {store1 : Store}
    (hwf : StoreWF store)
    (h : InMemorySessionStorage.create_session store osid freshId now
      = .ok (session, store1)) :
    StoreWF store1 ∧
    InMemorySessionStorage.get_session store1 session.session_id
      = some session := by
  simp only [InMemorySessionStorage.create_session] at h
  generalize hm : (match osid with | none => freshId | some s => s) = sid0 at h
  by_cases hc : containsKey store sid0
  · rw [if_pos hc] at h
    exact absurd h (by simp)
  · rw [if_neg hc] at h
    simp only [Except.ok.injEq, Prod.mk.injEq] at h
    obtain ⟨hs, hst⟩ := h
    subst hs
    subst hst
    exact ⟨storeWF_dictSet hwf rfl, get_session_dictSet_same _ _ _⟩

lemma get_or_create_session_ok {store : Store} {sid : Option String}
    {freshId : String} {now : Int} {session : ConversationSession}
    {store1 : Store}
    (hwf : StoreWF store)
    (h : SessionService.get_or_create_session store sid freshId now
      = .ok (session, store1)) :
    StoreWF store1 ∧
    InMemorySessionStorage.get_session store1 session.session_id
      = some session := by
  match sid with
  | none =>
    simp only [SessionService.get_or_create_session] at h
    exact create_session_ok hwf h
  | some s =>
    simp only [SessionService.get_or_create_session] at h
    by_cases hs : s = ""
    · rw [if_pos hs] at h
      exact create_session_ok hwf h
    · rw [if_neg hs] at h
      cases hget : InMemorySessionStorage.get_session store s with
      | none =>
        rw [hget] at h
        exact create_session_ok hwf h
      | some s0 =>
        rw [hget] at h
        simp only [Except.ok.injEq, Prod.mk.injEq] at h
        obtain ⟨h1, h2⟩ := h
        subst h1
        subst h2
        refine ⟨hwf, ?_⟩
        rw [get_session_some_key hwf hget]
        exact hget

lemma add_message_eq_of_get {store : Store} {sid : String}
    {s : ConversationSession} (role content : String) (md : Option Metadata)
    (now : Int)
    (hget : InMemorySessionStorage.get_session store sid = some s) :
    SessionService.add_message store sid role content md now =
      .ok (s.add_message role content md now,
        InMemorySessionStorage.update_session store
          (s.add_message role content md now)) := by
  simp only [SessionService.add_message, hget]

lemma foldl_delete_eq_filter (ids : List String) (store : Store) :
    ids.foldl (fun st sid => st.filter fun p => !(p.1 == sid)) store =
      store.filter fun p => ids.all fun sid => !(p.1 == sid) := by
  induction ids generalizing store with
  | nil => simp
  | cons i rest ih =>
    rw [List.foldl_cons, ih, List.filter_filter]
    refine List.filter_congr fun p _ => ?_
    rw [List.all_cons, Bool.and_comm]

lemma key_injective_of_nodup {store : Store}
    (hnd : (store.map Prod.fst).Nodup)
    {p q : String × ConversationSession}
    (hp : p ∈ store) (hq : q ∈ store) (hk : p.1 = q.1) : p = q :=
  List.inj_on_of_nodup_map hnd hp hq hk

lemma find?_key_filter {store : Store}
    (hnd : (store.map Prod.fst).Nodup) (sid : String)
    (keep : String × ConversationSession → Bool) :
    ((store.filter keep).find? fun p => p.1 == sid) =
      (store.find? fun p => p.1 == sid).bind
        fun p => if keep p then some p else none := by
  induction store with
  | nil => simp
  | cons q rest ih =>
    have hnd' : (rest.map Prod.fst).Nodup := by
      rw [List.map_cons, List.nodup_cons] at hnd
      exact hnd.2
    have hqrest : q.1 ∉ rest.map Prod.fst := by
      rw [List.map_cons, List.nodup_cons] at hnd
      exact hnd.1
    by_cases hq : (q.1 == sid) = true
    · have hsid : q.1 = sid := by simpa using hq
      have hrest : (rest.find? fun p => p.1 == sid) = none := by
        rw [List.find?_eq_none]
        intro p hp hpk
        refine hqrest ?_
        rw [List.mem_map]
        exact ⟨p, hp, by rw [hsid]; simpa using hpk⟩
      have hrestf : ((rest.filter keep).find? fun p => p.1 == sid) = none := by
        rw [List.find?_eq_none]
        intro p hp hpk
        rw [List.mem_filter] at hp
        exact List.find?_eq_none.mp hrest p hp.1 hpk
      rw [List.filter_cons]
      by_cases hk : keep q = true
      · rw [if_pos hk]
        simp [List.find?_cons, hq, hk]
      · rw [if_neg hk, hrestf]
        simp [List.find?_cons, hq, hk]
    · have hqf : (q.1 == sid) = false := by simpa using hq
      rw [List.filter_cons]
      by_cases hk : keep q = true
      · rw [if_pos hk]
        simp only [List.find?_cons, hqf]
        exact ih hnd'
      · rw [if_neg hk]
        simp only [List.find?_cons, hqf]
        exact ih hnd'

/-! ## `String.intercalate` lemmas for the context builder -/

lemma intercalate_go_append (s acc1 acc2 : String) (l : List String) :
    String.intercalate.go (acc1 ++ acc2) s l =
      acc1 ++ String.intercalate.go acc2 s l := by
  induction l generalizing acc2 with
  | nil => rfl
  | cons a rest ih =>
    have h1 : String.intercalate.go (acc1 ++ acc2) s (a :: rest)
        = String.intercalate.go (acc1 ++ acc2 ++ s ++ a) s rest := rfl
    have h2 : String.intercalate.go acc2 s (a :: rest)
        = String.intercalate.go (acc2 ++ s ++ a) s rest := rfl
    rw [h1, h2, show acc1 ++ acc2 ++ s ++ a = acc1 ++ (acc2 ++ s ++ a) by
      simp [String.append_assoc], ih]

lemma intercalate_cons_cons (s a b : String) (l : List String) :
    String.intercalate s (a :: b :: l) =
      a ++ s ++ String.intercalate s (b :: l) := by
  have h1 : String.intercalate s (a :: b :: l)
      = String.intercalate.go (a ++ s ++ b) s l := rfl
  rw [h1, intercalate_go_append s (a ++ s) b l]
  rfl

lemma intercalate_singleton (s a : String) :
    String.intercalate s [a] = a := rfl

lemma intercalate_cons_ne_nil (s x : String) (L : List String) (h : L ≠ []) :
    String.intercalate s (x :: L) = x ++ s ++ String.intercalate s L := by
  cases L with
  | nil => exact absurd rfl h
  | cons y ys => exact intercalate_cons_cons s x y ys

lemma intercalate_append_ne_nil (s : String) (l1 l2 : List String)
    (h1 : l1 ≠ []) (h2 : l2 ≠ []) :
    String.intercalate s (l1 ++ l2) =
      String.intercalate s l1 ++ s ++ String.intercalate s l2 := by
  induction l1 with
  | nil => exact absurd rfl h1
  | cons x rest ih =>
    by_cases hrest : rest = []
    · subst hrest
      rw [List.singleton_append, intercalate_cons_ne_nil s x l2 h2,
        intercalate_singleton]
    · have happ : rest ++ l2 ≠ [] := fun hc => hrest (List.append_eq_nil.mp hc).1
      rw [List.cons_append, intercalate_cons_ne_nil s x (rest ++ l2) happ,
        ih hrest, intercalate_cons_ne_nil s x rest hrest]
      simp [String.append_assoc]

/-! ## Claim theorems -/

/-- C10: in the in-memory store, `update_session` is an unconditional
upsert: for every session `s`, after `update_session s` a
`get_session s.session_id` returns `s`, even when no session with that id
was present beforehand — so update never fails on an absent id, and delete
followed by update resurrects the session. -/
theorem update_session_is_upsert (store : Store) (s : ConversationSession) :
    InMemorySessionStorage.get_session
      (InMemorySessionStorage.update_session store s) s.session_id = some s ∧
    InMemorySessionStorage.get_session
      (InMemorySessionStorage.update_session
        (InMemorySessionStorage.delete_session store s.session_id).2 s)
      s.session_id = some s :=
  ⟨get_session_dictSet_same store s.session_id s,
   get_session_dictSet_same
     (InMemorySessionStorage.delete_session store s.session_id).2
     s.session_id s⟩

/-- C6: `delete_session` returns true exactly when the id was present (and
removes it), false otherwise, and never errors; after a delete the history
fetch fails with the not-found error and a repeated delete returns false. -/
theorem delete_session_contract (store : Store) (sid : String) :
    ((InMemorySessionStorage.delete_session store sid).1
      = containsKey store sid) ∧
    (InMemorySessionStorage.get_session
      (InMemorySessionStorage.delete_session store sid).2 sid = none) ∧
    ((InMemorySessionStorage.delete_session
      (InMemorySessionStorage.delete_session store sid).2 sid).1 = false) ∧
    (SessionService.get_conversation_history
      (InMemorySessionStorage.delete_session store sid).2 sid
      = .error ("Session " ++ sid ++ " not found")) := by
  by_cases h : containsKey store sid
  · have h2 : (InMemorySessionStorage.delete_session store sid).2
        = store.filter fun p => !(p.1 == sid) := by
      rw [InMemorySessionStorage.delete_session, if_pos h]
    have hcf : containsKey (store.filter fun p => !(p.1 == sid)) sid = false := by
      rw [containsKey, List.any_eq_false]
      intro p hp hpk
      rw [List.mem_filter, hpk] at hp
      simp at hp
    have hget : InMemorySessionStorage.get_session
        (InMemorySessionStorage.delete_session store sid).2 sid = none := by
      rw [h2]
      exact get_session_eq_none_of_not_contains hcf
    refine ⟨?_, hget, ?_, ?_⟩
    · rw [InMemorySessionStorage.delete_session, if_pos h, h]
    · rw [h2, InMemorySessionStorage.delete_session, if_neg (by simp [hcf])]
    · rw [SessionService.get_conversation_history, hget]
  · have hb : containsKey store sid = false := by simpa using h
    have h2 : InMemorySessionStorage.delete_session store sid
        = (false, store) := by
      rw [InMemorySessionStorage.delete_session, if_neg h]
    have hget : InMemorySessionStorage.get_session store sid = none :=
      get_session_eq_none_of_not_contains hb
    refine ⟨?_, ?_, ?_, ?_⟩
    · rw [h2, hb]
    · rw [h2]
      exact hget
    · rw [h2, InMemorySessionStorage.delete_session, if_neg h]
    · rw [h2, SessionService.get_conversation_history, hget]

/-- C9: the streaming transport adapter emits exactly one wire frame per
orchestrator event, in order: a chunk event becomes a frame with mime type
`text/plain`, the fragment as data and the session id; a complete event a
frame with `turn_complete` true, `interrupted` null, session id and
metadata; an error event a frame with the error flag, the message,
`turn_complete` true and `interrupted` true. -/
theorem stream_adapter_one_frame_per_event (events : List AgentService.Event) :
    (stream_agent_response events).length = events.length ∧
    ∀ i : Nat, (stream_agent_response events)[i]? =
      (events[i]?).map fun ev =>
        match ev with
        | .chunk content session_id =>
            WireFrame.chunk "text/plain" content session_id
        | .complete session_id agent_name conversation_length =>
            WireFrame.complete true none session_id agent_name
              conversation_length
        | .error message => WireFrame.error true message true true := by
  constructor
  · rw [stream_agent_response, List.length_map]
  · intro i
    rw [stream_agent_response, List.getElem?_map]

/-- C7: `create_session` provisions the oracle-generated fresh id when no id
is given (succeeding whenever that id is not yet present, and storing the
new session under it), and fails with the already-exists error when the
given id is present — the raise happens before any store write, so the
stored session for that id is untouched. -/
theorem create_session_contract (store : Store) (freshId sid : String)
    (now : Int) :
    (containsKey store freshId = false →
      InMemorySessionStorage.create_session store none freshId now =
        .ok (⟨freshId, [], now, now, []⟩,
          dictSet store freshId ⟨freshId, [], now, now, []⟩) ∧
      InMemorySessionStorage.get_session
        (dictSet store freshId ⟨freshId, [], now, now, []⟩) freshId =
        some ⟨freshId, [], now, now, []⟩) ∧
    (containsKey store sid = true →
      InMemorySessionStorage.create_session store (some sid) freshId now =
        .error ("Session " ++ sid ++ " already exists")) := by
  constructor
  · intro h
    refine ⟨?_, get_session_dictSet_same store freshId _⟩
    simp only [InMemorySessionStorage.create_session]
    rw [if_neg (by simp [h])]
  · intro h
    simp only [InMemorySessionStorage.create_session]
    rw [if_pos h]

/-- Concrete one-session store used by witnesses. -/
def sampleSession : ConversationSession := ⟨"a", [], 0, 0, []⟩

/-- Concrete store with the single key `"a"`. -/
def sampleStore : Store := [("a", sampleSession)]

/-- C7 witness: on `sampleStore`, creating with no id provisions the fresh
id `"b"`, and creating with the occupied id `"a"` fails. -/
theorem create_session_contract_witness :
    (InMemorySessionStorage.create_session sampleStore none "b" 0 =
      .ok (⟨"b", [], 0, 0, []⟩, dictSet sampleStore "b" ⟨"b", [], 0, 0, []⟩) ∧
     InMemorySessionStorage.get_session
       (dictSet sampleStore "b" ⟨"b", [], 0, 0, []⟩) "b" =
       some ⟨"b", [], 0, 0, []⟩) ∧
    InMemorySessionStorage.create_session sampleStore (some "a") "b" 0 =
      .error "Session a already exists" :=
  ⟨(create_session_contract sampleStore "b" "a" 0).1 (by decide),
   (create_session_contract sampleStore "b" "a" 0).2 (by decide)⟩

/-- The session stored under the empty-string id in the C4 counterexample
store. -/
def emptyIdSession : ConversationSession := ⟨"", [], 0, 0, []⟩

/-- Store whose only session has the empty string as id (reachable:
`create_session("")` provisions it). -/
def emptyIdStore : Store := [("", emptyIdSession)]

/-- C4 counterexample: the empty-string id `""` is present in the store,
yet `get_or_create_session` does not return the stored session — Python's
`if session_id:` treats `""` as falsy, so the call skips the lookup, tries
to create `""` and raises the already-exists error. -/
theorem get_or_create_empty_id_counterexample :
    SessionService.get_or_create_session emptyIdStore (some "") "fresh" 0 =
      .error "Session  already exists" ∧
    (SessionService.get_or_create_session emptyIdStore (some "") "fresh" 0).isOk
      = false := by
  constructor <;> rfl

/-- C4 (amended): for every NONEMPTY id present in the store,
`get_or_create_session` returns the stored session with that same
`session_id` and leaves the store unchanged (hence calling it twice
returns the same session and duplicates no messages); a given nonempty
absent id is provisioned exactly; with no id given, the fresh oracle id is
provisioned.  (For the empty-string id the call instead fails with
already-exists, per the counterexample.) -/
theorem get_or_create_session_contract (store : Store) (sid freshId : String)
    (now : Int) (hwf : StoreWF store) (hsid : sid ≠ "") :
    (∀ s, InMemorySessionStorage.get_session store sid = some s →
      SessionService.get_or_create_session store (some sid) freshId now
        = .ok (s, store) ∧ s.session_id = sid) ∧
    (InMemorySessionStorage.get_session store sid = none →
      SessionService.get_or_create_session store (some sid) freshId now
        = .ok (⟨sid, [], now, now, []⟩,
            dictSet store sid ⟨sid, [], now, now, []⟩)) ∧
    (containsKey store freshId = false →
      SessionService.get_or_create_session store none freshId now
        = .ok (⟨freshId, [], now, now, []⟩,
            dictSet store freshId ⟨freshId, [], now, now, []⟩)) := by
  refine ⟨?_, ?_, ?_⟩
  · intro s hs
    refine ⟨?_, get_session_some_key hwf hs⟩
    simp only [SessionService.get_or_create_session]
    rw [if_neg hsid, hs]
  · intro hs
    have hc : containsKey store sid = false :=
      contains_eq_false_of_get_session_eq_none hs
    simp only [SessionService.get_or_create_session,
      InMemorySessionStorage.create_session]
    rw [if_neg hsid, hs]
    simp only
    rw [if_neg (by simp [hc])]
  · intro hc
    simp only [SessionService.get_or_create_session,
      InMemorySessionStorage.create_session]
    rw [if_neg (by simp [hc])]

/-- C4 witness: on the one-session store `sampleStore`, the present id
`"a"` is returned unchanged with the store untouched, and the absent id
`"c"` is provisioned exactly. -/
theorem get_or_create_session_contract_witness :
    (SessionService.get_or_create_session sampleStore (some "a") "b" 0
      = .ok (sampleSession, sampleStore) ∧ sampleSession.session_id = "a") ∧
    SessionService.get_or_create_session sampleStore (some "c") "b" 0
      = .ok (⟨"c", [], 0, 0, []⟩, dictSet sampleStore "c" ⟨"c", [], 0, 0, []⟩) :=
  ⟨(get_or_create_session_contract sampleStore "a" "b" 0 (by decide)
      (by decide)).1 sampleSession (by decide),
   (get_or_create_session_contract sampleStore "c" "b" 0 (by decide)
      (by decide)).2.1 (by decide)⟩

/-- C5: for an id present in the store, `add_message` appends exactly one
message with the given role and content at the end of the session's
message list (all prior messages unchanged and in order), sets
`updated_at` to the append instant, persists, and returns the updated
session; for an absent id both `add_message` and the history fetch fail
with the not-found error. -/
theorem add_message_contract (store : Store) (sid role content : String)
    (md : Option Metadata) (now : Int) (hwf : StoreWF store) :
    (∀ s, InMemorySessionStorage.get_session store sid = some s →
      ∃ s' store',
        SessionService.add_message store sid role content md now
          = .ok (s', store') ∧
        s'.session_id = s.session_id ∧
        s'.messages = s.messages ++ [⟨role, content, now, md.getD []⟩] ∧
        s'.updated_at = now ∧
        InMemorySessionStorage.get_session store' sid = some s') ∧
    (InMemorySessionStorage.get_session store sid = none →
      SessionService.add_message store sid role content md now =
        .error ("Session " ++ sid ++ " not found") ∧
      SessionService.get_conversation_history store sid =
        .error ("Session " ++ sid ++ " not found")) := by
  constructor
  · intro s hs
    refine ⟨s.add_message role content md now,
      InMemorySessionStorage.update_session store
        (s.add_message role content md now),
      add_message_eq_of_get role content md now hs, rfl, rfl, rfl, ?_⟩
    have hkey : (s.add_message role content md now).session_id = sid := by
      show s.session_id = sid
      exact get_session_some_key hwf hs
    rw [InMemorySessionStorage.update_session, hkey]
    exact get_session_dictSet_same store sid _
  · intro hs
    constructor
    · simp only [SessionService.add_message]
      rw [hs]
    · simp only [SessionService.get_conversation_history]
      rw [hs]

/-- C5 witness: appending to the present id `"a"` of `sampleStore`
succeeds with the appended message, and appending to the absent id `"c"`
fails with the not-found error. -/
theorem add_message_contract_witness :
    (∃ s' store',
      SessionService.add_message sampleStore "a" "user" "hi" none 1
        = .ok (s', store') ∧
      s'.session_id = sampleSession.session_id ∧
      s'.messages = sampleSession.messages ++ [⟨"user", "hi", 1, []⟩] ∧
      s'.updated_at = 1 ∧
      InMemorySessionStorage.get_session store' "a" = some s') ∧
    SessionService.add_message sampleStore "c" "user" "hi" none 1 =
      .error "Session c not found" :=
  ⟨(add_message_contract sampleStore "a" "user" "hi" none 1 (by decide)).1
      sampleSession (by decide),
   ((add_message_contract sampleStore "c" "user" "hi" none 1 (by decide)).2
      (by decide)).1⟩

/-- C3: `cleanup_expired_sessions` with horizon `H` at instant `now`
removes exactly the sessions whose `updated_at` is strictly older than
`now - H`, keeps every other session retrievable unchanged, and returns
the number of sessions removed. -/
theorem cleanup_expired_contract (store : Store) (now H : Int)
    (hwf : StoreWF store) :
    ((InMemorySessionStorage.cleanup_expired_sessions store now H).1 =
      (store.filter fun p => decide (p.2.updated_at < now - H)).length) ∧
    ((InMemorySessionStorage.cleanup_expired_sessions store now H).2 =
      store.filter fun p => !decide (p.2.updated_at < now - H)) ∧
    (∀ sid, InMemorySessionStorage.get_session
        (InMemorySessionStorage.cleanup_expired_sessions store now H).2 sid =
      match InMemorySessionStorage.get_session store sid with
      | some s => if s.updated_at < now - H then none else some s
      | none => none) := by
  have hstore2 : (InMemorySessionStorage.cleanup_expired_sessions store now H).2
      = store.filter fun p => !decide (p.2.updated_at < now - H) := by
    show ((store.filter fun p => decide (p.2.updated_at < now - H)).map
        Prod.fst).foldl (fun st sid => st.filter fun p => !(p.1 == sid)) store
      = _
    rw [foldl_delete_eq_filter]
    refine List.filter_congr fun p hp => ?_
    by_cases hold : p.2.updated_at < now - H
    · have hmem : p.1 ∈ (store.filter fun q =>
          decide (q.2.updated_at < now - H)).map Prod.fst := by
        rw [List.mem_map]
        exact ⟨p, List.mem_filter.mpr ⟨hp, by simpa using hold⟩, rfl⟩
      have hall : ((store.filter fun q =>
          decide (q.2.updated_at < now - H)).map Prod.fst).all
          (fun sid => !(p.1 == sid)) = false := by
        rw [List.all_eq_false]
        exact ⟨p.1, hmem, by simp⟩
      rw [hall]
      simp [hold]
    · have hall : ∀ x ∈ (store.filter fun q =>
          decide (q.2.updated_at < now - H)).map Prod.fst,
          (!(p.1 == x)) = true := by
        intro x hx
        rw [List.mem_map] at hx
        obtain ⟨q, hq, hqx⟩ := hx
        rw [List.mem_filter] at hq
        have hne : p.1 ≠ x := by
          intro hcontra
          have hpq : p = q :=
            key_injective_of_nodup hwf.1 hp hq.1 (by rw [hcontra, ← hqx])
          rw [hpq] at hold
          exact hold (by simpa using hq.2)
        simp [hne]
      rw [List.all_eq_true.mpr hall]
      simp [hold]
  refine ⟨?_, hstore2, ?_⟩
  · show ((store.filter fun p => decide (p.2.updated_at < now - H)).map
        Prod.fst).length = _
    rw [List.length_map]
  intro sid
  rw [InMemorySessionStorage.get_session, hstore2,
    find?_key_filter hwf.1 sid _]
  cases hfind : store.find? (fun p => p.1 == sid) with
  | none =>
    rw [InMemorySessionStorage.get_session, hfind]
    simp
  | some p =>
    rw [InMemorySessionStorage.get_session, hfind]
    by_cases hold : p.2.updated_at < now - H
    · simp [hold]
      omega
    · simp [hold]
      omega

/-- Store for the C3 witness: session `"A"` fresh at instant 100, session
`"B"` last updated at instant 75 (25 hours before `now = 100`). -/
def sweepStore : Store :=
  [("A", ⟨"A", [], 100, 100, []⟩), ("B", ⟨"B", [], 75, 75, []⟩)]

/-- C3 witness: sweeping `sweepStore` at `now = 100` with a 24-hour
horizon removes exactly session `"B"` (count 1) and keeps `"A"`
retrievable. -/
theorem cleanup_expired_contract_witness :
    (InMemorySessionStorage.cleanup_expired_sessions sweepStore 100 24).1 = 1 ∧
    (InMemorySessionStorage.cleanup_expired_sessions sweepStore 100 24).2 =
      [("A", ⟨"A", [], 100, 100, []⟩)] ∧
    InMemorySessionStorage.get_session
      (InMemorySessionStorage.cleanup_expired_sessions sweepStore 100 24).2 "A"
      = some ⟨"A", [], 100, 100, []⟩ ∧
    InMemorySessionStorage.get_session
      (InMemorySessionStorage.cleanup_expired_sessions sweepStore 100 24).2 "B"
      = none := by
  have h := cleanup_expired_contract sweepStore 100 24 (by decide)
  refine ⟨?_, ?_, ?_, ?_⟩
  · rw [h.1]
    decide
  · rw [h.2.1]
    decide
  · rw [h.2.2 "A"]
    decide
  · rw [h.2.2 "B"]
    decide

/-- C1: the context builder returns the raw query on an empty history or a
one-message window; on a window with more than one message it renders the
previous-context header, the `role: content` lines of every windowed
message but the last, the current-question marker, and the query; and for
a 15-message history the window is messages 5..14, so the context block
lists exactly messages 5..13 (message 14 and messages 0..4 are excluded,
the query fills the current slot). -/
theorem build_context_contract (history : List HistoryEntry) (q : String) :
    (history = [] → AgentService.build_context_from_history history q = q) ∧
    ((AgentService.recent_history history).length = 1 →
      AgentService.build_context_from_history history q = q) ∧
    (1 < (AgentService.recent_history history).length →
      AgentService.build_context_from_history history q =
        "Contexto da conversa anterior:" ++ "\n" ++
        String.intercalate "\n"
          ((AgentService.recent_history history).dropLast.map
            AgentService.render_history_line) ++
        "\n" ++ "\nPergunta atual:" ++ "\n" ++ q) ∧
    (history.length = 15 →
      AgentService.recent_history history = history.drop 5 ∧
      (AgentService.recent_history history).dropLast.length = 9 ∧
      ∀ i : Nat, i < 9 →
        ((AgentService.recent_history history).dropLast)[i]? =
          history[i + 5]?) := by
  have hrecnil : AgentService.recent_history [] = ([] : List HistoryEntry) := by
    rw [AgentService.recent_history]
    simp
  refine ⟨?_, ?_, ?_, ?_⟩
  · intro h
    subst h
    rfl
  · intro h
    have hne : history ≠ [] := by
      intro hc
      subst hc
      rw [hrecnil] at h
      simp at h
    rw [AgentService.build_context_from_history,
      if_neg (by simpa using hne)]
    simp only
    rw [if_neg (by omega), intercalate_singleton]
  · intro h
    have hne : history ≠ [] := by
      intro hc
      subst hc
      rw [hrecnil] at h
      simp at h
    rw [AgentService.build_context_from_history,
      if_neg (by simpa using hne)]
    simp only
    rw [if_pos h]
    have hlines : (AgentService.recent_history history).dropLast.map
        AgentService.render_history_line ≠ [] := by
      have : 0 < ((AgentService.recent_history history).dropLast.map
          AgentService.render_history_line).length := by
        rw [List.length_map, List.length_dropLast]
        omega
      exact List.length_pos.mp this
    rw [List.append_assoc, List.append_assoc]
    rw [show (["\nPergunta atual:"] ++ [q]) = ["\nPergunta atual:", q] from rfl]
    rw [intercalate_append_ne_nil "\n" ["Contexto da conversa anterior:"]
        ((AgentService.recent_history history).dropLast.map
          AgentService.render_history_line ++ ["\nPergunta atual:", q])
        (by simp) (by simp),
      intercalate_append_ne_nil "\n"
        ((AgentService.recent_history history).dropLast.map
          AgentService.render_history_line)
        ["\nPergunta atual:", q] hlines (by simp),
      intercalate_singleton, intercalate_cons_cons, intercalate_singleton]
    have hlit : "\n" ++ ("\nPergunta atual:\n" ++ q)
        = "\n\nPergunta atual:\n" ++ q := by
      rw [← String.append_assoc]
      rfl
    simp [String.append_assoc, hlit]
  · intro hlen
    have hrec : AgentService.recent_history history = history.drop 5 := by
      rw [AgentService.recent_history, if_pos (by omega), hlen]
    refine ⟨hrec, ?_, ?_⟩
    · rw [hrec, List.length_dropLast, List.length_drop, hlen]
    · intro i hi
      rw [hrec, List.getElem?_dropLast, List.length_drop, hlen]
      rw [if_pos (by omega), List.getElem?_drop]
      rw [Nat.add_comm]

/-- Fifteen alternating history entries (contents `m0` … `m14`) for the C1
witness. -/
def hist15 : List HistoryEntry :=
  (List.range 15).map fun i =>
    ⟨if i % 2 == 0 then "user" else "assistant", "m" ++ toString i, (i : Int)⟩

/-- C1 witness: the empty history returns the raw query, and on the
15-message history the window is messages 5..14 with the context block
starting at message 5. -/
theorem build_context_contract_witness :
    (AgentService.build_context_from_history [] "q0" = "q0") ∧
    (AgentService.build_context_from_history hist15 "nq" =
      "Contexto da conversa anterior:" ++ "\n" ++
      String.intercalate "\n"
        ((AgentService.recent_history hist15).dropLast.map
          AgentService.render_history_line) ++
      "\n" ++ "\nPergunta atual:" ++ "\n" ++ "nq") ∧
    AgentService.recent_history hist15 = hist15.drop 5 ∧
    ((AgentService.recent_history hist15).dropLast)[0]? = hist15[0 + 5]? :=
  ⟨(build_context_contract [] "q0").1 rfl,
   (build_context_contract hist15 "nq").2.2.1 (by decide),
   ((build_context_contract hist15 "nq").2.2.2 (by decide)).1,
   ((build_context_contract hist15 "nq").2.2.2 (by decide)).2.2 0
     (by decide)⟩

/-- After a successful session resolution, committing the user message
inside `process_query_stream` succeeds and persists exactly the enhanced
query at the end of the resolved session's messages. -/
lemma process_stream_user_commit {store : Store} {sid : Option String}
    {freshId : String} {now : Int} {session : ConversationSession}
    {store1 : Store} (query : String) (md : Option Metadata)
    (fd : Option (Except String String))
    (hwf : StoreWF store)
    (hres : SessionService.get_or_create_session store sid freshId now
      = .ok (session, store1)) :
    SessionService.add_message store1 session.session_id "user"
        (AgentService.enhance_query query fd) (some (md.getD [])) now
      = .ok (session.add_message "user" (AgentService.enhance_query query fd)
          (some (md.getD [])) now,
        InMemorySessionStorage.update_session store1
          (session.add_message "user" (AgentService.enhance_query query fd)
            (some (md.getD [])) now)) ∧
    InMemorySessionStorage.get_session
      (InMemorySessionStorage.update_session store1
        (session.add_message "user" (AgentService.enhance_query query fd)
          (some (md.getD [])) now)) session.session_id
      = some (session.add_message "user" (AgentService.enhance_query query fd)
          (some (md.getD [])) now) := by
  obtain ⟨hwf1, hget1⟩ := get_or_create_session_ok hwf hres
  refine ⟨add_message_eq_of_get _ _ _ _ hget1, ?_⟩
  rw [InMemorySessionStorage.update_session]
  rw [show (session.add_message "user" (AgentService.enhance_query query fd)
      (some (md.getD [])) now).session_id = session.session_id from rfl]
  exact get_session_dictSet_same _ _ _

/-- C2: if the completion stream raises after yielding any prefix of
fragments, `process_query_stream` ends the turn with a terminal `error`
event, emits no `complete` event, and commits no assistant message — the
session holds exactly its prior messages plus the user message of this
turn. -/
theorem process_query_stream_error_contract
    (store : Store) (query : String) (sid : Option String)
    (md : Option Metadata) (fd : Option (Except String String))
    (freshId : String) (now : Int) (agent_name : String)
    (spec : AgentService.StreamSpec) (e : String)
    (session : ConversationSession) (store1 : Store)
    (hwf : StoreWF store)
    (hres : SessionService.get_or_create_session store sid freshId now
      = .ok (session, store1))
    (herr : spec.error = some e) :
    ((AgentService.process_query_stream store query sid md fd freshId now
        agent_name spec).1.getLast? = some (.error e)) ∧
    (∀ ev ∈ (AgentService.process_query_stream store query sid md fd freshId
        now agent_name spec).1, ev.isComplete = false) ∧
    ∃ s', InMemorySessionStorage.get_session
        (AgentService.process_query_stream store query sid md fd freshId now
          agent_name spec).2 session.session_id = some s' ∧
      s'.messages = session.messages
        ++ [⟨"user", AgentService.enhance_query query fd, now, md.getD []⟩] := by
  obtain ⟨haddeq, hget2⟩ := process_stream_user_commit query md fd hwf hres
  have hrun : AgentService.process_query_stream store query sid md fd freshId
      now agent_name spec
      = ((spec.fragments.map fun c =>
            AgentService.Event.chunk c session.session_id)
          ++ [.error e],
        InMemorySessionStorage.update_session store1
          (session.add_message "user" (AgentService.enhance_query query fd)
            (some (md.getD [])) now)) := by
    rw [AgentService.process_query_stream.eq_def, hres]
    simp only
    rw [haddeq]
    simp only
    rw [herr]
  rw [hrun]
  refine ⟨List.getLast?_concat _, ?_, ?_⟩
  · intro ev hev
    rcases List.mem_append.mp hev with hc | hc
    · rw [List.mem_map] at hc
      obtain ⟨c, _, rfl⟩ := hc
      rfl
    · rw [List.mem_singleton] at hc
      subst hc
      rfl
  · exact ⟨_, hget2, rfl⟩

/-- C2 witness: on the empty store with a fresh session, a stream that
yields one fragment and then raises `boom` ends in the error event, emits
no complete event, and leaves only the user message persisted. -/
theorem process_query_stream_error_contract_witness :
    ((AgentService.process_query_stream [] "q" none none none "s1" 0 "agent"
        ⟨["frag "], some "boom"⟩).1.getLast? = some (.error "boom")) ∧
    AgentService.Event.isComplete
      (.chunk "frag " "s1") = false ∧
    ∃ s', InMemorySessionStorage.get_session
        (AgentService.process_query_stream [] "q" none none none "s1" 0
          "agent" ⟨["frag "], some "boom"⟩).2 "s1" = some s' ∧
      s'.messages = [⟨"user", "q", 0, []⟩] :=
  ⟨(process_query_stream_error_contract [] "q" none none none "s1" 0 "agent"
      ⟨["frag "], some "boom"⟩ "boom" ⟨"s1", [], 0, 0, []⟩
      [("s1", ⟨"s1", [], 0, 0, []⟩)] (by decide) rfl rfl).1,
   (process_query_stream_error_contract [] "q" none none none "s1" 0 "agent"
      ⟨["frag "], some "boom"⟩ "boom" ⟨"s1", [], 0, 0, []⟩
      [("s1", ⟨"s1", [], 0, 0, []⟩)] (by decide) rfl rfl).2.1
      (.chunk "frag " "s1") (by decide),
   (process_query_stream_error_contract [] "q" none none none "s1" 0 "agent"
      ⟨["frag "], some "boom"⟩ "boom" ⟨"s1", [], 0, 0, []⟩
      [("s1", ⟨"s1", [], 0, 0, []⟩)] (by decide) rfl rfl).2.2⟩

/-- C8: a completion stream that yields zero fragments and exhausts
normally still persists an empty assistant message and ends the turn with
exactly one terminal `complete` event carrying the session id and the
resulting conversation length (two more than before the turn) — an empty
stream is not an error. -/
theorem process_query_stream_empty_contract
    (store : Store) (query : String) (sid : Option String)
    (md : Option Metadata) (fd : Option (Except String String))
    (freshId : String) (now : Int) (agent_name : String)
    (session : ConversationSession) (store1 : Store)
    (hwf : StoreWF store)
    (hres : SessionService.get_or_create_session store sid freshId now
      = .ok (session, store1)) :
    ((AgentService.process_query_stream store query sid md fd freshId now
        agent_name ⟨[], none⟩).1 =
      [.complete session.session_id agent_name
        (session.messages.length + 2)]) ∧
    ∃ s', InMemorySessionStorage.get_session
        (AgentService.process_query_stream store query sid md fd freshId now
          agent_name ⟨[], none⟩).2 session.session_id = some s' ∧
      s'.messages = session.messages
        ++ [⟨"user", AgentService.enhance_query query fd, now, md.getD []⟩,
            ⟨"assistant", "", now, [("agent_name", agent_name)]⟩] := by
  obtain ⟨haddeq, hget2⟩ := process_stream_user_commit query md fd hwf hres
  set session2 := session.add_message "user"
    (AgentService.enhance_query query fd) (some (md.getD [])) now with hs2
  set store2 := InMemorySessionStorage.update_session store1 session2 with hst2
  have haddeq2 : SessionService.add_message store2 session.session_id
      "assistant" (String.join []) (some [("agent_name", agent_name)]) now
      = .ok (session2.add_message "assistant" (String.join [])
          (some [("agent_name", agent_name)]) now,
        InMemorySessionStorage.update_session store2
          (session2.add_message "assistant" (String.join [])
            (some [("agent_name", agent_name)]) now)) :=
    add_message_eq_of_get _ _ _ _ hget2
  set session3 := session2.add_message "assistant" (String.join [])
    (some [("agent_name", agent_name)]) now with hs3
  set store3 := InMemorySessionStorage.update_session store2 session3 with hst3
  have hget3 : InMemorySessionStorage.get_session store3 session.session_id
      = some session3 := by
    rw [hst3, InMemorySessionStorage.update_session]
    rw [show session3.session_id = session.session_id from rfl]
    exact get_session_dictSet_same _ _ _
  have hlen3 : session3.messages.length = session.messages.length + 2 := by
    rw [hs3, hs2]
    simp [ConversationSession.add_message]
  have hrun : AgentService.process_query_stream store query sid md fd freshId
      now agent_name ⟨[], none⟩
      = ([.complete session.session_id agent_name session3.messages.length],
        store3) := by
    rw [AgentService.process_query_stream.eq_def, hres]
    simp only
    rw [haddeq]
    simp only
    rw [haddeq2]
    rfl
  rw [hrun, hlen3]
  refine ⟨rfl, session3, hget3, ?_⟩
  rw [hs3, hs2]
  simp [ConversationSession.add_message, show String.join [] = "" from rfl]

/-- C8 witness: on the empty store with a fresh session, the empty stream
turn ends with the single complete event (conversation length 2) and
persists the user message followed by an empty assistant message. -/
theorem process_query_stream_empty_contract_witness :
    ((AgentService.process_query_stream [] "q" none none none "s1" 0 "agent"
        ⟨[], none⟩).1 = [.complete "s1" "agent" 2]) ∧
    ∃ s', InMemorySessionStorage.get_session
        (AgentService.process_query_stream [] "q" none none none "s1" 0
          "agent" ⟨[], none⟩).2 "s1" = some s' ∧
      s'.messages = [⟨"user", "q", 0, []⟩,
        ⟨"assistant", "", 0, [("agent_name", "agent")]⟩] :=
  ⟨(process_query_stream_empty_contract [] "q" none none none "s1" 0 "agent"
      ⟨"s1", [], 0, 0, []⟩ [("s1", ⟨"s1", [], 0, 0, []⟩)]
      (by decide) rfl).1,
   (process_query_stream_empty_contract [] "q" none none none "s1" 0 "agent"
      ⟨"s1", [], 0, 0, []⟩ [("s1", ⟨"s1", [], 0, 0, []⟩)]
      (by decide) rfl).2⟩
